import Mathlib

/-!
Verification of the Extended-AdTech-Analytics service: a shallow embedding of
the TTL cache (`src/cache.py`), the cache-backed statistics query handler
(`src/main.py`), and the statistics aggregation logic
(`src/database.py`, `src/data_processing.py`, `src/dashboard.py`).

Modelling conventions:
* `time.time()` timestamps and expiry instants are rationals (`ℚ`); `ttl`
  values are integers (`ℤ`), matching the `Optional[int]` annotation.
* The Python `dict` backing the cache is an insertion-ordered association
  list `List (String × CacheEntry α)`; Python dicts keep at most one entry
  per key, captured by the well-formedness predicate `CacheWF`.
* Fallible / absent results are `Option`.
* Python `round(x, 2)` is modelled by `round2` on `ℚ` (round half up on the
  second decimal; binary-float tie behaviour differs only at exact half-cent
  values, which none of the statements below depend on).
-/

set_option autoImplicit false

universe u

/-- A cache entry as stored by `CacheManager.set` in `src/cache.py`:
the dict `{'value': value, 'expires_at': expires_at}`. -/
structure CacheEntry (α : Type u) where
  value : α
  expires_at : ℚ
  deriving Repr, DecidableEq

/-- The backing store `self._cache : Dict[str, ...]`, as an
insertion-ordered association list. -/
abbrev CacheMap (α : Type u) : Type u := List (String × CacheEntry α)

/-- Python `key in self._cache` / `self._cache[key]`: first entry with the given
key, if any. -/
def lookupKey {α : Type u} : CacheMap α → String → Option (CacheEntry α)
  | [], _ => none
  | p :: rest, k => if p.1 = k then some p.2 else lookupKey rest k

/-- Python `del self._cache[key]`: removes the (unique) entry for the key;
on an association list, the first matching entry. -/
def removeKey {α : Type u} : CacheMap α → String → CacheMap α
  | [], _ => []
  | p :: rest, k => if p.1 = k then rest else p :: removeKey rest k

/-- Python `self._cache[key] = entry`: overwrites in place if the key is present
(a Python dict keeps the original position), otherwise appends. -/
def setKey {α : Type u} : CacheMap α → String → CacheEntry α → CacheMap α
  | [], k, e => [(k, e)]
  | p :: rest, k, e => if p.1 = k then (k, e) :: rest else p :: setKey rest k e

/-- Python dicts hold at most one entry per key. -/
def CacheWF {α : Type u} (c : CacheMap α) : Prop := (c.map Prod.fst).Nodup

/-- The `CacheManager` class of `src/cache.py`. -/
structure CacheManager (α : Type u) where
  cache : CacheMap α
  default_ttl : ℤ := 300

namespace CacheManager

variable {α : Type u}

/-- Model of `CacheManager.get` (src/cache.py:18-29): returns the stored value and
the resulting cache state. A missing key returns `none`; an entry with
`now > expires_at` is deleted and `none` is returned; otherwise the stored
value is returned and the state is unchanged. -/
def get (m : CacheManager α) (key : String) (now : ℚ) :
    Option α × CacheManager α :=
  match lookupKey m.cache key with
  | none => (none, m)
  | some entry =>
      if now > entry.expires_at then
        (none, { m with cache := removeKey m.cache key })
      else
        (some entry.value, m)

/-- Model of `CacheManager.set` (src/cache.py:31-42): stores the value with
`expires_at = now + ttl`, the ttl defaulting to `default_ttl`. -/
def set (m : CacheManager α) (key : String) (value : α) (ttl : Option ℤ)
    (now : ℚ) : CacheManager α :=
  let t : ℤ := ttl.getD m.default_ttl
  { m with cache := setKey m.cache key ⟨value, now + (t : ℚ)⟩ }

/-- Model of `CacheManager.delete` (src/cache.py:44-50): removes the entry if
present, returning whether a removal occurred. -/
def delete (m : CacheManager α) (key : String) : Bool × CacheManager α :=
  match lookupKey m.cache key with
  | some _ => (true, { m with cache := removeKey m.cache key })
  | none => (false, m)

/-- Model of `CacheManager.clear` (src/cache.py:52-55): removes all entries. -/
def clear (m : CacheManager α) : CacheManager α := { m with cache := [] }

/-- Model of `CacheManager.cleanup_expired` (src/cache.py:57-71): collects the keys
of all entries with `current_time > expires_at`, deletes each of them,
and returns the count removed. -/
def cleanup_expired (m : CacheManager α) (now : ℚ) : ℕ × CacheManager α :=
  let expired_keys : List String :=
    ((m.cache.filter fun p => now > p.2.expires_at).map Prod.fst)
  (expired_keys.length,
    { m with cache := expired_keys.foldl (fun c k => removeKey c k) m.cache })

/-- Model of `CacheManager.get_stats` (src/cache.py:73-79): runs `cleanup_expired`
first, then reports the entry count and the list of keys. -/
def get_stats (m : CacheManager α) (now : ℚ) :
    (ℕ × List String) × CacheManager α :=
  let m' := (cleanup_expired m now).2
  ((m'.cache.length, m'.cache.map Prod.fst), m')

end CacheManager

/-! ### Association-list lemmas for the cache map -/

theorem lookupKey_eq_none_iff {α : Type u} (c : CacheMap α) (k : String) :
    lookupKey c k = none ↔ k ∉ c.map Prod.fst := by
  induction c with
  | nil => simp [lookupKey]
  | cons p rest ih =>
      by_cases h : p.1 = k
      · simp [lookupKey, h]
      · simp [lookupKey, h, ih, Ne.symm h]

theorem lookupKey_removeKey_ne {α : Type u} (c : CacheMap α) (k k' : String)
    (h : k' ≠ k) : lookupKey (removeKey c k) k' = lookupKey c k' := by
  induction c with
  | nil => rfl
  | cons p rest ih =>
      by_cases hp : p.1 = k
      · simp [removeKey, hp, lookupKey, Ne.symm h]
      · by_cases hpk : p.1 = k'
        · simp [removeKey, hp, lookupKey, hpk, h]
        · simp [removeKey, hp, lookupKey, hpk, ih]

theorem lookupKey_removeKey_self {α : Type u} (c : CacheMap α) (k : String)
    (h : CacheWF c) : lookupKey (removeKey c k) k = none := by
  induction c with
  | nil => rfl
  | cons p rest ih =>
      rw [CacheWF, List.map_cons, List.nodup_cons] at h
      by_cases hp : p.1 = k
      · rw [removeKey, if_pos hp, lookupKey_eq_none_iff]
        rw [hp] at h
        exact h.1
      · rw [removeKey, if_neg hp, lookupKey, if_neg hp]
        exact ih h.2

theorem lookupKey_setKey_self {α : Type u} (c : CacheMap α) (k : String)
    (e : CacheEntry α) : lookupKey (setKey c k e) k = some e := by
  induction c with
  | nil => simp [setKey, lookupKey]
  | cons p rest ih =>
      by_cases hp : p.1 = k
      · simp [setKey, hp, lookupKey]
      · simp [setKey, hp, lookupKey, ih]

theorem lookupKey_setKey_ne {α : Type u} (c : CacheMap α) (k k' : String)
    (e : CacheEntry α) (h : k' ≠ k) :
    lookupKey (setKey c k e) k' = lookupKey c k' := by
  induction c with
  | nil => simp [setKey, lookupKey, Ne.symm h]
  | cons p rest ih =>
      by_cases hp : p.1 = k
      · simp [setKey, hp, lookupKey, Ne.symm h, hp ▸ Ne.symm h]
      · by_cases hpk : p.1 = k'
        · simp [setKey, hp, lookupKey, hpk, h]
        · simp [setKey, hp, lookupKey, hpk, ih]

theorem CacheManager.get_of_lookup_none {α : Type u} (m : CacheManager α)
    (k : String) (now : ℚ) (h : lookupKey m.cache k = none) :
    m.get k now = (none, m) := by
  unfold CacheManager.get
  rw [h]

theorem CacheManager.get_of_lookup_some {α : Type u} (m : CacheManager α)
    (k : String) (now : ℚ) (e : CacheEntry α)
    (h : lookupKey m.cache k = some e) :
    m.get k now =
      if now > e.expires_at then
        (none, { m with cache := removeKey m.cache k })
      else (some e.value, m) := by
  unfold CacheManager.get
  rw [h]

/-! ### Cache claims -/

/-- C1: for every key and cache state, `get` never returns a value whose
`expires_at` has passed: if the entry exists and `now > expires_at`, `get`
removes it and returns absent; if it exists and `now ≤ expires_at`, `get`
returns the stored value and leaves the cache unchanged. -/
theorem get_never_returns_expired {α : Type u} (m : CacheManager α)
    (k : String) (now : ℚ) (e : CacheEntry α)
    (hwf : CacheWF m.cache) (hfind : lookupKey m.cache k = some e) :
    (now > e.expires_at →
      (m.get k now).1 = none ∧ lookupKey (m.get k now).2.cache k = none) ∧
    (now ≤ e.expires_at →
      (m.get k now).1 = some e.value ∧ (m.get k now).2 = m) := by
  have hg := CacheManager.get_of_lookup_some m k now e hfind
  constructor
  · intro hexp
    rw [hg, if_pos hexp]
    exact ⟨rfl, lookupKey_removeKey_self m.cache k hwf⟩
  · intro hlive
    rw [hg, if_neg (not_lt.mpr hlive)]
    exact ⟨rfl, rfl⟩

/-- A concrete one-entry cache used by the witnesses. -/
def cacheEx : CacheManager ℤ := { cache := [("stats", ⟨7, 5⟩)] }

/-- Witness for C1 at a concrete expired entry. -/
theorem get_never_returns_expired_witness :
    CacheWF cacheEx.cache ∧ lookupKey cacheEx.cache "stats" = some ⟨7, 5⟩ ∧
    (((6 : ℚ) > (5 : ℚ) →
      (cacheEx.get "stats" 6).1 = none ∧
      lookupKey (cacheEx.get "stats" 6).2.cache "stats" = none) ∧
     ((6 : ℚ) ≤ (5 : ℚ) →
      (cacheEx.get "stats" 6).1 = some (7 : ℤ) ∧
      (cacheEx.get "stats" 6).2 = cacheEx)) :=
  ⟨by unfold CacheWF cacheEx; decide, rfl,
    get_never_returns_expired cacheEx "stats" 6 ⟨7, 5⟩
      (by unfold CacheWF cacheEx; decide) rfl⟩

/-- C7 counterexample: `set(k, v, ttl=0)` at time 0 followed by `get(k)` at
the same timestamp returns the stored value, because the code tests
`now > expires_at` strictly — the entry is not "immediately expired". -/
theorem set_zero_ttl_same_instant_returns_value :
    ((CacheManager.set { cache := [] } "k" (7 : ℤ) (some 0) 0).get "k" 0).1
      = some 7 := by
  norm_num [CacheManager.set, CacheManager.get, setKey, lookupKey]

/-- C7 (amended): after `set(k, v, ttl)` with `ttl ≤ 0`, any `get(k)` at a
strictly later time returns absent; with `ttl < 0` even a `get(k)` at a
time `≥` the set time returns absent. (Only a `get` at exactly the set
instant with `ttl = 0` still sees the value.) -/
theorem set_nonpositive_ttl_expired {α : Type u} (m : CacheManager α)
    (k : String) (v : α) (ttl : ℤ) (t₀ t₁ : ℚ) (httl : ttl ≤ 0) :
    (t₀ < t₁ → ((m.set k v (some ttl) t₀).get k t₁).1 = none) ∧
    (ttl < 0 → t₀ ≤ t₁ → ((m.set k v (some ttl) t₀).get k t₁).1 = none) := by
  have hlook : lookupKey (m.set k v (some ttl) t₀).cache k
      = some ⟨v, t₀ + (ttl : ℚ)⟩ := by
    simp [CacheManager.set, lookupKey_setKey_self]
  have hg := CacheManager.get_of_lookup_some (m.set k v (some ttl) t₀) k t₁
    ⟨v, t₀ + (ttl : ℚ)⟩ hlook
  constructor
  · intro hlt
    have h0 : (ttl : ℚ) ≤ 0 := by exact_mod_cast httl
    have hgt : t₁ > t₀ + (ttl : ℚ) := by linarith
    rw [hg, if_pos hgt]
  · intro hneg hle
    have h0 : (ttl : ℚ) < 0 := by exact_mod_cast hneg
    have hgt : t₁ > t₀ + (ttl : ℚ) := by linarith
    rw [hg, if_pos hgt]

/-- Witness for the amended C7 at `ttl = -1`. -/
theorem set_nonpositive_ttl_expired_witness :
    ((-1 : ℤ) ≤ 0) ∧
    (((0 : ℚ) < 1 →
      ((CacheManager.set ({ cache := [] } : CacheManager ℤ) "k" 7
          (some (-1)) 0).get "k" 1).1 = none) ∧
     ((-1 : ℤ) < 0 → (0 : ℚ) ≤ 1 →
      ((CacheManager.set ({ cache := [] } : CacheManager ℤ) "k" 7
          (some (-1)) 0).get "k" 1).1 = none)) :=
  ⟨by decide,
    set_nonpositive_ttl_expired { cache := [] } "k" 7 (-1) 0 1 (by decide)⟩

/-- C10: the single-key operations `get k`, `set k` and `delete k` leave
the entry of every key other than `k` unchanged. -/
theorem single_key_ops_frame {α : Type u} (m : CacheManager α)
    (k k' : String) (v : α) (ttl : Option ℤ) (now : ℚ) (hne : k' ≠ k) :
    lookupKey (m.get k now).2.cache k' = lookupKey m.cache k' ∧
    lookupKey (m.set k v ttl now).cache k' = lookupKey m.cache k' ∧
    lookupKey (m.delete k).2.cache k' = lookupKey m.cache k' := by
  refine ⟨?_, ?_, ?_⟩
  · cases hl : lookupKey m.cache k with
    | none => rw [CacheManager.get_of_lookup_none m k now hl]
    | some e =>
        rw [CacheManager.get_of_lookup_some m k now e hl]
        by_cases hexp : now > e.expires_at
        · rw [if_pos hexp]
          exact lookupKey_removeKey_ne _ _ _ hne
        · rw [if_neg hexp]
  · simp [CacheManager.set, lookupKey_setKey_ne _ _ _ _ hne]
  · unfold CacheManager.delete
    cases hl : lookupKey m.cache k with
    | none => rfl
    | some e => exact lookupKey_removeKey_ne _ _ _ hne

/-- Witness for C10 at a concrete cache and distinct keys. -/
theorem single_key_ops_frame_witness :
    ("other" ≠ "stats") ∧
    (lookupKey (cacheEx.get "stats" 6).2.cache "other"
        = lookupKey cacheEx.cache "other" ∧
     lookupKey (cacheEx.set "stats" 9 none 6).cache "other"
        = lookupKey cacheEx.cache "other" ∧
     lookupKey (cacheEx.delete "stats").2.cache "other"
        = lookupKey cacheEx.cache "other") :=
  ⟨by decide, single_key_ops_frame cacheEx "stats" "other" 9 none 6 (by decide)⟩

/-! ### Sweep: `cleanup_expired` machinery -/

theorem removeKey_sublist {α : Type u} (c : CacheMap α) (k : String) :
    List.Sublist (removeKey c k) c := by
  induction c with
  | nil => simp [removeKey]
  | cons p rest ih =>
      by_cases hp : p.1 = k
      · rw [removeKey, if_pos hp]
        exact List.sublist_cons_self p rest
      · rw [removeKey, if_neg hp]
        exact List.Sublist.cons₂ p ih

theorem cacheWF_removeKey {α : Type u} (c : CacheMap α) (k : String)
    (h : CacheWF c) : CacheWF (removeKey c k) :=
  List.Nodup.sublist ((removeKey_sublist c k).map Prod.fst) h

theorem removeKey_eq_filter {α : Type u} (c : CacheMap α) (k : String)
    (h : CacheWF c) : removeKey c k = c.filter (fun p => decide (p.1 ≠ k)) := by
  induction c with
  | nil => rfl
  | cons p rest ih =>
      rw [CacheWF, List.map_cons, List.nodup_cons] at h
      by_cases hp : p.1 = k
      · rw [removeKey, if_pos hp]
        have hcond : (decide (p.1 ≠ k)) = false := by simp [hp]
        rw [List.filter_cons, hcond, if_neg (by simp)]
        symm
        apply List.filter_eq_self.mpr
        intro q hq
        simp only [decide_eq_true_eq]
        intro hqk
        exact h.1 (by
          rw [hp, ← hqk]
          exact List.mem_map_of_mem Prod.fst hq)
      · rw [removeKey, if_neg hp]
        have hcond : (decide (p.1 ≠ k)) = true := by simp [hp]
        rw [List.filter_cons, hcond, if_pos (by simp [hp]), ih h.2]

theorem foldl_removeKey_eq_filter {α : Type u} (ks : List String)
    (c : CacheMap α) (h : CacheWF c) :
    ks.foldl (fun m k => removeKey m k) c
      = c.filter (fun p => decide (p.1 ∉ ks)) := by
  induction ks generalizing c with
  | nil => simp
  | cons k ks ih =>
      rw [List.foldl_cons, ih (removeKey c k) (cacheWF_removeKey c k h),
        removeKey_eq_filter c k h, List.filter_filter]
      apply List.filter_congr
      intro p hp
      simp [List.mem_cons, not_or, Bool.and_comm]

theorem eq_of_mem_of_fst_eq {α : Type u} (c : CacheMap α) (h : CacheWF c)
    {p q : String × CacheEntry α} (hp : p ∈ c) (hq : q ∈ c)
    (hfst : p.1 = q.1) : p = q := by
  induction c with
  | nil => cases hp
  | cons r rest ih =>
      rw [CacheWF, List.map_cons, List.nodup_cons] at h
      rcases List.mem_cons.mp hp with hpr | hp'
      · rcases List.mem_cons.mp hq with hqr | hq'
        · rw [hpr, hqr]
        · exact absurd (show r.1 ∈ rest.map Prod.fst by
            rw [← hpr, hfst]
            exact List.mem_map_of_mem Prod.fst hq') h.1
      · rcases List.mem_cons.mp hq with hqr | hq'
        · exact absurd (show r.1 ∈ rest.map Prod.fst by
            rw [← hqr, ← hfst]
            exact List.mem_map_of_mem Prod.fst hp') h.1
        · exact ih h.2 hp' hq'

theorem lookupKey_eq_some_iff_mem {α : Type u} (c : CacheMap α)
    (k : String) (e : CacheEntry α) (h : CacheWF c) :
    lookupKey c k = some e ↔ (k, e) ∈ c := by
  induction c with
  | nil => simp [lookupKey]
  | cons p rest ih =>
      rw [CacheWF, List.map_cons, List.nodup_cons] at h
      by_cases hp : p.1 = k
      · rw [lookupKey, if_pos hp, List.mem_cons]
        constructor
        · intro he
          have he2 : p.2 = e := by injection he
          exact Or.inl (by rw [← hp, ← he2])
        · rintro (he | hmem)
          · rw [← he]
          · exact absurd (by rw [hp]; exact List.mem_map_of_mem Prod.fst hmem)
              h.1
      · rw [lookupKey, if_neg hp, List.mem_cons, ih h.2]
        have hne : ¬((k, e) = p) := fun he => hp (by rw [← he])
        simp [hne]

theorem cleanup_expired_cache_eq {α : Type u} (m : CacheManager α) (now : ℚ)
    (hwf : CacheWF m.cache) :
    (m.cleanup_expired now).2.cache
      = m.cache.filter (fun p => !(decide (now > p.2.expires_at))) := by
  have h0 : (m.cleanup_expired now).2.cache
      = ((m.cache.filter fun p => now > p.2.expires_at).map Prod.fst).foldl
          (fun c k => removeKey c k) m.cache := rfl
  rw [h0, foldl_removeKey_eq_filter _ _ hwf]
  apply List.filter_congr
  intro p hp
  by_cases hexp : now > p.2.expires_at
  · have hmem : p.1 ∈ (m.cache.filter fun q => now > q.2.expires_at).map
        Prod.fst :=
      List.mem_map_of_mem Prod.fst (List.mem_filter.mpr ⟨hp, by simp [hexp]⟩)
    simp [hmem, hexp]
  · have hnmem : p.1 ∉ (m.cache.filter fun q => now > q.2.expires_at).map
        Prod.fst := by
      intro hmem
      rcases List.mem_map.mp hmem with ⟨q, hq, hq1⟩
      rcases List.mem_filter.mp hq with ⟨hqc, hqexp⟩
      have hqp : q = p := eq_of_mem_of_fst_eq m.cache hwf hqc hp hq1
      rw [hqp] at hqexp
      simp only [decide_eq_true_eq] at hqexp
      exact hexp hqexp
    simp [hnmem, hexp]

theorem cleanup_expired_count {α : Type u} (m : CacheManager α) (now : ℚ)
    (hwf : CacheWF m.cache) :
    (m.cleanup_expired now).1 + (m.cleanup_expired now).2.cache.length
      = m.cache.length := by
  have h1 : (m.cleanup_expired now).1
      = (m.cache.filter fun p => now > p.2.expires_at).length := by
    show ((m.cache.filter fun p : String × CacheEntry α =>
        now > p.2.expires_at).map Prod.fst).length
      = (m.cache.filter fun p : String × CacheEntry α =>
        now > p.2.expires_at).length
    rw [List.length_map]
  rw [h1, cleanup_expired_cache_eq m now hwf]
  exact (List.length_eq_length_filter_add
    (fun p : String × CacheEntry α => decide (now > p.2.expires_at))).symm

/-- C9: `cleanup_expired` removes exactly the entries with
`expires_at < now` (all of them and no others) and returns the number of
entries removed (= original size minus remaining size); `get_stats` sweeps
first, so its `total_entries` equals the number of non-expired entries and
its key list holds exactly the live keys. -/
theorem sweep_and_stats_spec {α : Type u} (m : CacheManager α) (now : ℚ)
    (hwf : CacheWF m.cache) :
    (∀ (k : String) (e : CacheEntry α),
        lookupKey (m.cleanup_expired now).2.cache k = some e ↔
          lookupKey m.cache k = some e ∧ ¬ now > e.expires_at) ∧
    (m.cleanup_expired now).1 + (m.cleanup_expired now).2.cache.length
        = m.cache.length ∧
    (m.get_stats now).1.1
        = (m.cache.filter fun p => ¬ now > p.2.expires_at).length ∧
    (∀ k : String, k ∈ (m.get_stats now).1.2 ↔
        ∃ e, lookupKey m.cache k = some e ∧ ¬ now > e.expires_at) := by
  have hwf' : CacheWF (m.cleanup_expired now).2.cache := by
    rw [cleanup_expired_cache_eq m now hwf]
    exact List.Nodup.sublist ((List.filter_sublist m.cache).map Prod.fst) hwf
  refine ⟨?_, cleanup_expired_count m now hwf, ?_, ?_⟩
  · intro k e
    rw [lookupKey_eq_some_iff_mem _ k e hwf', cleanup_expired_cache_eq m now hwf,
      List.mem_filter, lookupKey_eq_some_iff_mem _ k e hwf]
    simp
  · have h2 : (m.get_stats now).1.1 = (m.cleanup_expired now).2.cache.length :=
      rfl
    rw [h2, cleanup_expired_cache_eq m now hwf]
    congr 1
    apply List.filter_congr
    intro p _
    rw [← decide_not, decide_eq_decide]
  · intro k
    have h3 : (m.get_stats now).1.2
        = (m.cleanup_expired now).2.cache.map Prod.fst := rfl
    rw [h3, cleanup_expired_cache_eq m now hwf]
    constructor
    · intro hk
      rcases List.mem_map.mp hk with ⟨q, hq, hq1⟩
      rcases List.mem_filter.mp hq with ⟨hqc, hqb⟩
      refine ⟨q.2, ?_, ?_⟩
      · rw [lookupKey_eq_some_iff_mem _ _ _ hwf, ← hq1]
        exact hqc
      · simpa using hqb
    · rintro ⟨e, hle, hexp⟩
      rw [lookupKey_eq_some_iff_mem _ _ _ hwf] at hle
      exact List.mem_map_of_mem Prod.fst
        (List.mem_filter.mpr ⟨hle, by simp [hexp]⟩)

/-- A concrete two-entry cache (one expired at time 10) for the C9 witness. -/
def cacheEx2 : CacheManager ℤ := { cache := [("a", ⟨1, 5⟩), ("b", ⟨2, 100⟩)] }

/-- Witness for C9 at a concrete cache with one expired entry. -/
theorem sweep_and_stats_spec_witness :
    CacheWF cacheEx2.cache ∧
    ((∀ (k : String) (e : CacheEntry ℤ),
        lookupKey (cacheEx2.cleanup_expired 10).2.cache k = some e ↔
          lookupKey cacheEx2.cache k = some e ∧ ¬ (10 : ℚ) > e.expires_at) ∧
     (cacheEx2.cleanup_expired 10).1
         + (cacheEx2.cleanup_expired 10).2.cache.length
         = cacheEx2.cache.length ∧
     (cacheEx2.get_stats 10).1.1
         = (cacheEx2.cache.filter fun p => ¬ (10 : ℚ) > p.2.expires_at).length ∧
     (∀ k : String, k ∈ (cacheEx2.get_stats 10).1.2 ↔
        ∃ e, lookupKey cacheEx2.cache k = some e ∧
          ¬ (10 : ℚ) > e.expires_at)) :=
  ⟨by unfold CacheWF cacheEx2; decide,
    sweep_and_stats_spec cacheEx2 10 (by unfold CacheWF cacheEx2; decide)⟩

/-! ### Statistics aggregation: `src/database.py` -/

/-- Python `round(x, 2)`. -/
def round2 (q : ℚ) : ℚ := ((round (q * 100) : ℤ) : ℚ) / 100

namespace Database

/-- A row of the `ad_data` table as consumed by `get_stats`
(src/database.py:100-108): date (ISO string; ISO dates compare
lexicographically like calendar dates), channel, clicks, conversions and
the stored conversion_rate column. -/
structure AdRow where
  date : String
  channel : String
  clicks : ℤ
  conversions : ℤ
  conversion_rate : ℚ
  deriving Repr, DecidableEq

/-- Model of `if start_date: query = query.filter(AdData.date >= start_date)`
(src/database.py:89-90). Python truthiness: `None` and the empty string
are falsy, so both leave the query unfiltered. -/
def filterStartDate (sd : Option String) (rows : List AdRow) : List AdRow :=
  match sd with
  | none => rows
  | some s => if s = "" then rows else rows.filter (fun r => s ≤ r.date)

/-- Model of `if end_date: query = query.filter(AdData.date <= end_date)`
(src/database.py:91-92). -/
def filterEndDate (ed : Option String) (rows : List AdRow) : List AdRow :=
  match ed with
  | none => rows
  | some e => if e = "" then rows else rows.filter (fun r => r.date ≤ e)

/-- Model of `if channel: query = query.filter(AdData.channel == channel)`
(src/database.py:93-94). -/
def filterChannel (ch : Option String) (rows : List AdRow) : List AdRow :=
  match ch with
  | none => rows
  | some c => if c = "" then rows else rows.filter (fun r => r.channel = c)

/-- The three filters in source order (src/database.py:89-94). -/
def applyFilters (rows : List AdRow) (sd ed ch : Option String) :
    List AdRow :=
  filterChannel ch (filterEndDate ed (filterStartDate sd rows))

/-- The `summary` object computed by `get_stats` (src/database.py:110-122). -/
structure Summary where
  total_records : ℕ
  total_clicks : ℤ
  total_conversions : ℤ
  avg_conversion_rate : ℚ
  deriving Repr, DecidableEq

/-- Summary computation of `get_stats` (src/database.py:110-122):
`avg_conversion_rate = total_conversions / total_clicks * 100 if
total_clicks > 0 else 0`, rounded to 2 decimals in the response. -/
def summarize (rows : List AdRow) : Summary :=
  let total_clicks : ℤ := (rows.map (fun r => r.clicks)).sum
  let total_conversions : ℤ := (rows.map (fun r => r.conversions)).sum
  let avg : ℚ :=
    if total_clicks > 0 then
      ((total_conversions : ℚ) / (total_clicks : ℚ)) * 100
    else 0
  { total_records := rows.length
    total_clicks := total_clicks
    total_conversions := total_conversions
    avg_conversion_rate := round2 avg }

/-- The response of `get_stats`: the (filtered) data rows with rounded
per-record rates, plus the summary (src/database.py:98-123). -/
structure StatsResult where
  data : List AdRow
  summary : Summary
  deriving Repr, DecidableEq

/-- Model of `get_stats` (src/database.py:76-123) over an in-memory table. -/
def get_stats (rows : List AdRow) (sd ed ch : Option String) : StatsResult :=
  let data := applyFilters rows sd ed ch
  { data := data.map (fun r => { r with conversion_rate := round2 r.conversion_rate })
    summary := summarize data }

end Database

/-- C5: `summarize []` is `{total_records: 0, total_clicks: 0,
total_conversions: 0, avg_conversion_rate: 0}`, and whenever
`total_clicks = 0` the `avg_conversion_rate` is exactly 0 (the division is
guarded by `if total_clicks > 0`). -/
theorem summarize_zero_guard :
    Database.summarize [] = ⟨0, 0, 0, 0⟩ ∧
    ∀ rows : List Database.AdRow,
      (Database.summarize rows).total_clicks = 0 →
      (Database.summarize rows).avg_conversion_rate = 0 := by
  constructor
  · simp [Database.summarize, round2]
  · intro rows h
    simp only [Database.summarize] at h ⊢
    rw [h, if_neg (by norm_num)]
    simp [round2]

/-- Witness for C5: a record set whose total clicks are 0. -/
theorem summarize_zero_guard_witness :
    (Database.summarize [⟨"2024-01-01", "search", 0, 5, 0⟩]).total_clicks = 0 ∧
    (Database.summarize
      [⟨"2024-01-01", "search", 0, 5, 0⟩]).avg_conversion_rate = 0 :=
  ⟨by simp [Database.summarize],
    summarize_zero_guard.2 [⟨"2024-01-01", "search", 0, 5, 0⟩]
      (by simp [Database.summarize])⟩

namespace Database

theorem filterStartDate_filterChannel_comm (sd ch : Option String)
    (rows : List AdRow) :
    filterStartDate sd (filterChannel ch rows)
      = filterChannel ch (filterStartDate sd rows) := by
  cases sd with
  | none => rfl
  | some s =>
      cases ch with
      | none => rfl
      | some c =>
          simp only [filterStartDate, filterChannel]
          split_ifs <;>
            first
              | rfl
              | exact List.filter_comm _ _ _

theorem filterEndDate_filterChannel_comm (ed ch : Option String)
    (rows : List AdRow) :
    filterEndDate ed (filterChannel ch rows)
      = filterChannel ch (filterEndDate ed rows) := by
  cases ed with
  | none => rfl
  | some e =>
      cases ch with
      | none => rfl
      | some c =>
          simp only [filterEndDate, filterChannel]
          split_ifs <;>
            first
              | rfl
              | exact List.filter_comm _ _ _

theorem filterStartDate_filterEndDate_comm (sd ed : Option String)
    (rows : List AdRow) :
    filterStartDate sd (filterEndDate ed rows)
      = filterEndDate ed (filterStartDate sd rows) := by
  cases sd with
  | none => rfl
  | some s =>
      cases ed with
      | none => rfl
      | some e =>
          simp only [filterStartDate, filterEndDate]
          split_ifs <;>
            first
              | rfl
              | exact List.filter_comm _ _ _

theorem filterStartDate_sublist (sd : Option String) (rows : List AdRow) :
    List.Sublist (filterStartDate sd rows) rows := by
  cases sd with
  | none => exact List.Sublist.refl rows
  | some s =>
      simp only [filterStartDate]
      split_ifs
      · exact List.Sublist.refl rows
      · exact List.filter_sublist rows

theorem filterEndDate_sublist (ed : Option String) (rows : List AdRow) :
    List.Sublist (filterEndDate ed rows) rows := by
  cases ed with
  | none => exact List.Sublist.refl rows
  | some e =>
      simp only [filterEndDate]
      split_ifs
      · exact List.Sublist.refl rows
      · exact List.filter_sublist rows

theorem filterChannel_sublist (ch : Option String) (rows : List AdRow) :
    List.Sublist (filterChannel ch rows) rows := by
  cases ch with
  | none => exact List.Sublist.refl rows
  | some c =>
      simp only [filterChannel]
      split_ifs
      · exact List.Sublist.refl rows
      · exact List.filter_sublist rows

end Database

/-- C8: the date and channel filters commute (applying the channel filter
then the date-range filter equals the opposite order), absent filters are
no-ops, and the filtered result is a sublist of the input — it preserves
the input's relative record order. -/
theorem filters_commute_noop_preserve_order :
    (∀ (rows : List Database.AdRow) (sd ed ch : Option String),
        Database.filterChannel ch (Database.filterEndDate ed
            (Database.filterStartDate sd rows))
          = Database.filterStartDate sd (Database.filterEndDate ed
            (Database.filterChannel ch rows))) ∧
    (∀ rows : List Database.AdRow,
        Database.filterStartDate none rows = rows ∧
        Database.filterEndDate none rows = rows ∧
        Database.filterChannel none rows = rows) ∧
    (∀ (rows : List Database.AdRow) (sd ed ch : Option String),
        List.Sublist (Database.applyFilters rows sd ed ch) rows) := by
  refine ⟨?_, ?_, ?_⟩
  · intro rows sd ed ch
    rw [← Database.filterEndDate_filterChannel_comm,
      ← Database.filterStartDate_filterChannel_comm,
      Database.filterStartDate_filterEndDate_comm]
  · intro rows
    exact ⟨rfl, rfl, rfl⟩
  · intro rows sd ed ch
    exact ((Database.filterChannel_sublist ch _).trans
      (Database.filterEndDate_sublist ed _)).trans
      (Database.filterStartDate_sublist sd rows)

namespace Database

/-- One entry per distinct channel in first-seen order (`GROUP BY channel`;
SQL does not specify the group order — first-seen is the model's choice,
and no statement below depends on it). -/
def channelsFirstSeen (rows : List AdRow) : List String :=
  rows.foldl (fun acc r => if r.channel ∈ acc then acc else acc ++ [r.channel])
    []

/-- A row of the `get_channel_summary` result (src/database.py:151-159). -/
structure ChannelSummaryRow where
  channel : String
  record_count : ℕ
  total_clicks : ℤ
  total_conversions : ℤ
  avg_conversion_rate : ℚ
  deriving Repr, DecidableEq

/-- Stable insertion for `ORDER BY total_clicks DESC`: a row goes before
the first row with strictly fewer clicks, so equal-clicks rows keep their
relative order. (SQL leaves the tie order unspecified; the model fixes it.) -/
def insertByClicksDesc (x : ChannelSummaryRow) :
    List ChannelSummaryRow → List ChannelSummaryRow
  | [] => [x]
  | y :: rest =>
      if y.total_clicks < x.total_clicks then x :: y :: rest
      else y :: insertByClicksDesc x rest

def sortByClicksDesc (l : List ChannelSummaryRow) : List ChannelSummaryRow :=
  l.foldr insertByClicksDesc []

/-- Model of `get_channel_summary` (src/database.py:131-161): SQL `GROUP BY channel`
with `COUNT(*)`, `SUM(clicks)`, `SUM(conversions)` and
`AVG(conversion_rate)` — the mean of the stored per-record rates — rounded
to 2 decimals in the row mapping, `ORDER BY total_clicks DESC`. -/
def get_channel_summary (rows : List AdRow) : List ChannelSummaryRow :=
  sortByClicksDesc ((channelsFirstSeen rows).map (fun c =>
    let grp := rows.filter (fun r => r.channel = c)
    { channel := c
      record_count := grp.length
      total_clicks := (grp.map (fun r => r.clicks)).sum
      total_conversions := (grp.map (fun r => r.conversions)).sum
      avg_conversion_rate :=
        round2 ((grp.map (fun r => r.conversion_rate)).sum
          / (grp.length : ℚ)) }))

theorem mem_insertByClicksDesc (x b : ChannelSummaryRow)
    (l : List ChannelSummaryRow) :
    b ∈ insertByClicksDesc x l ↔ b = x ∨ b ∈ l := by
  induction l with
  | nil => simp [insertByClicksDesc]
  | cons y rest ih =>
      by_cases hxy : y.total_clicks < x.total_clicks
      · simp only [insertByClicksDesc, if_pos hxy, List.mem_cons]
      · simp only [insertByClicksDesc, if_neg hxy, List.mem_cons, ih]
        tauto

theorem sorted_insertByClicksDesc (x : ChannelSummaryRow)
    (l : List ChannelSummaryRow)
    (h : l.Sorted (fun a b => b.total_clicks ≤ a.total_clicks)) :
    (insertByClicksDesc x l).Sorted
      (fun a b => b.total_clicks ≤ a.total_clicks) := by
  induction l with
  | nil => simp [insertByClicksDesc]
  | cons y rest ih =>
      rw [List.sorted_cons] at h
      by_cases hxy : y.total_clicks < x.total_clicks
      · rw [insertByClicksDesc, if_pos hxy, List.sorted_cons]
        refine ⟨?_, ?_⟩
        · intro b hb
          rcases List.mem_cons.mp hb with rfl | hb'
          · exact le_of_lt hxy
          · exact le_trans (h.1 b hb') (le_of_lt hxy)
        · rw [List.sorted_cons]
          exact h
      · rw [insertByClicksDesc, if_neg hxy, List.sorted_cons]
        refine ⟨?_, ih h.2⟩
        intro b hb
        rcases (mem_insertByClicksDesc x b rest).mp hb with rfl | hb'
        · exact not_lt.mp hxy
        · exact h.1 b hb'

theorem sorted_sortByClicksDesc (l : List ChannelSummaryRow) :
    (sortByClicksDesc l).Sorted
      (fun a b => b.total_clicks ≤ a.total_clicks) := by
  induction l with
  | nil => simp [sortByClicksDesc]
  | cons x rest ih =>
      rw [sortByClicksDesc, List.foldr_cons]
      exact sorted_insertByClicksDesc x _ ih

end Database

/-! ### CSV processing and pandas aggregation: `src/data_processing.py` -/

namespace DataProcessing

/-- An input row after `pd.to_numeric(..., errors='coerce')`
(src/data_processing.py:29-30): `none` models a NaN produced by coercion
of an invalid value (the input here has no `impressions` column, so the
branch at lines 33-36 is skipped). -/
structure CsvRow where
  date : String
  channel : String
  clicks : Option ℚ
  conversions : Option ℚ
  deriving Repr, DecidableEq

/-- A row surviving `df.dropna(subset=['clicks', 'conversions'])`. -/
structure NumRow where
  date : String
  channel : String
  clicks : ℚ
  conversions : ℚ
  deriving Repr, DecidableEq

/-- A processed record with its `conversion_rate` column. -/
structure ProcRow where
  date : String
  channel : String
  clicks : ℚ
  conversions : ℚ
  conversion_rate : ℚ
  deriving Repr, DecidableEq

/-- Model of `df.dropna(subset=['clicks', 'conversions'])`
(src/data_processing.py:39). -/
def dropnaClicksConversions (rows : List CsvRow) : List NumRow :=
  rows.filterMap fun r =>
    match r.clicks, r.conversions with
    | some cl, some cv => some ⟨r.date, r.channel, cl, cv⟩
    | _, _ => none

/-- Model of `process_csv_data` (src/data_processing.py:38-49): drops NaN rows,
drops rows with `clicks <= 0` (`df = df[df['clicks'] > 0]`, line 40),
then computes `conversion_rate = conversions / clicks * 100` (line 43). -/
def process_csv_data (rows : List CsvRow) : List ProcRow :=
  let step1 := dropnaClicksConversions rows
  let step2 := step1.filter (fun r => r.clicks > 0)
  step2.map fun r =>
    ⟨r.date, r.channel, r.clicks, r.conversions, (r.conversions / r.clicks) * 100⟩

/-- The distinct channels of a record set in first-seen order. -/
def channelsSeen (rows : List ProcRow) : List String :=
  rows.foldl (fun acc r => if r.channel ∈ acc then acc else acc ++ [r.channel])
    []

/-- Ascending insertion for the pandas `groupby` key order. -/
def insertChannelAsc (s : String) : List String → List String
  | [] => [s]
  | t :: rest => if s ≤ t then s :: t :: rest else t :: insertChannelAsc s rest

def sortChannelsAsc (l : List String) : List String :=
  l.foldr insertChannelAsc []

/-- The aggregated output row of `aggregate_by_channel`. -/
structure ChannelAgg where
  channel : String
  clicks : ℚ
  conversions : ℚ
  conversion_rate : ℚ
  deriving Repr, DecidableEq

/-- Model of `aggregate_by_channel` (src/data_processing.py:73-89): pandas
`df.groupby('channel')` returns one group per distinct channel in
ascending key order (`sort=True` is the pandas default); clicks and
conversions are summed; the `'mean'` aggregation of `conversion_rate`
(line 83) is immediately overwritten on line 87 by
`conversions / clicks * 100` computed from the group totals. No sort by
clicks is ever applied. (For a zero-click group pandas would produce
`inf`/`NaN` — there is no zero-guard on line 87; the model's `ℚ` division
returns 0 there, and no statement below relies on that case.) -/
def aggregate_by_channel (rows : List ProcRow) : List ChannelAgg :=
  if rows = [] then [] else
  (sortChannelsAsc (channelsSeen rows)).map fun c =>
    let grp := rows.filter (fun r => r.channel = c)
    { channel := c
      clicks := (grp.map (fun r => r.clicks)).sum
      conversions := (grp.map (fun r => r.conversions)).sum
      conversion_rate :=
        ((grp.map (fun r => r.conversions)).sum
          / (grp.map (fun r => r.clicks)).sum) * 100 }

theorem mem_insertChannelAsc (s b : String) (l : List String) :
    b ∈ insertChannelAsc s l ↔ b = s ∨ b ∈ l := by
  induction l with
  | nil => simp [insertChannelAsc]
  | cons t rest ih =>
      by_cases hst : s ≤ t
      · simp only [insertChannelAsc, if_pos hst, List.mem_cons]
      · simp only [insertChannelAsc, if_neg hst, List.mem_cons, ih]
        tauto

theorem sorted_insertChannelAsc (s : String) (l : List String)
    (h : l.Sorted (fun a b => a ≤ b)) :
    (insertChannelAsc s l).Sorted (fun a b => a ≤ b) := by
  induction l with
  | nil => simp [insertChannelAsc]
  | cons t rest ih =>
      rw [List.sorted_cons] at h
      by_cases hst : s ≤ t
      · rw [insertChannelAsc, if_pos hst, List.sorted_cons]
        refine ⟨?_, ?_⟩
        · intro b hb
          rcases List.mem_cons.mp hb with rfl | hb'
          · exact hst
          · exact le_trans hst (h.1 b hb')
        · rw [List.sorted_cons]
          exact h
      · rw [insertChannelAsc, if_neg hst, List.sorted_cons]
        refine ⟨?_, ih h.2⟩
        intro b hb
        rcases (mem_insertChannelAsc s b rest).mp hb with rfl | hb'
        · exact le_of_not_le hst
        · exact h.1 b hb'

theorem sorted_sortChannelsAsc (l : List String) :
    (sortChannelsAsc l).Sorted (fun a b => a ≤ b) := by
  induction l with
  | nil => simp [sortChannelsAsc]
  | cons s rest ih =>
      rw [sortChannelsAsc, List.foldr_cons]
      exact sorted_insertChannelAsc s _ ih

end DataProcessing

/-! ### The cache-backed stats endpoint: `src/main.py` -/

namespace Main

/-- The filter parameters of `/data/stats`:
`(start_date, end_date, channel)`. -/
abbrev Params := Option String × Option String × Option String

/-- Python f-string interpolation of an `Optional[str]`:
`None` renders as `"None"`. -/
def optRepr : Option String → String
  | none => "None"
  | some s => s

/-- Model of `cache_key = f"stats_\x7bstart_date\x7d_\x7bend_date\x7d_\x7bchannel\x7d"`
(src/main.py:121). -/
def cacheKeyFor (p : Params) : String :=
  "stats_" ++ optRepr p.1 ++ "_" ++ optRepr p.2.1 ++ "_" ++ optRepr p.2.2

/-- Model of `get_statistics` (src/main.py:114-132). `db` abstracts the
`database.get_stats` computation over the current table. The guard
`if cached_result:` takes the hit branch iff the cached value is truthy;
the cached value is always a dict with the keys `data` and `summary`,
which is always truthy, so the guard is equivalent to presence. Returns
(response, cache state after the call, whether the Aggregator/database
computation ran). -/
def get_statistics (cache : CacheManager Database.StatsResult)
    (db : Params → Database.StatsResult) (p : Params) (now : ℚ) :
    Database.StatsResult × CacheManager Database.StatsResult × Bool :=
  let key := cacheKeyFor p
  let res := cache.get key now
  match res.1 with
  | some cached => (cached, res.2, false)
  | none =>
      let stats := db p
      (stats, res.2.set key stats (some 300) now, true)

theorem get_statistics_miss (cache : CacheManager Database.StatsResult)
    (db : Params → Database.StatsResult) (p : Params) (now : ℚ)
    (h : lookupKey cache.cache (cacheKeyFor p) = none) :
    get_statistics cache db p now
      = (db p, cache.set (cacheKeyFor p) (db p) (some 300) now, true) := by
  simp only [get_statistics, CacheManager.get_of_lookup_none cache _ now h]

theorem get_statistics_hit (cache : CacheManager Database.StatsResult)
    (db : Params → Database.StatsResult) (p : Params) (now : ℚ)
    (e : CacheEntry Database.StatsResult)
    (h : lookupKey cache.cache (cacheKeyFor p) = some e)
    (hlive : ¬ now > e.expires_at) :
    get_statistics cache db p now = (e.value, cache, false) := by
  simp only [get_statistics, CacheManager.get_of_lookup_some cache _ now e h,
    if_neg hlive]

theorem get_statistics_expired (cache : CacheManager Database.StatsResult)
    (db : Params → Database.StatsResult) (p : Params) (now : ℚ)
    (e : CacheEntry Database.StatsResult)
    (h : lookupKey cache.cache (cacheKeyFor p) = some e)
    (hexp : now > e.expires_at) :
    get_statistics cache db p now
      = (db p,
         CacheManager.set
           { cache with cache := removeKey cache.cache (cacheKeyFor p) }
           (cacheKeyFor p) (db p) (some 300) now,
         true) := by
  simp only [get_statistics, CacheManager.get_of_lookup_some cache _ now e h,
    if_pos hexp]

end Main

/-- Concrete inputs for the C2 statements. -/
def c2Cache0 : CacheManager Database.StatsResult := { cache := [] }

def c2Db : Main.Params → Database.StatsResult := fun _ => ⟨[], ⟨0, 0, 0, 0⟩⟩

def c2Params : Main.Params := (none, none, none)

/-- C2 counterexample: two consecutive calls with identical parameters and
no intervening `clear()`, the second 301 seconds after the first: the
cached entry (TTL 300) has expired, so the database computation runs on
both calls — "exactly once" fails as stated. -/
theorem stats_handler_reinvokes_after_ttl :
    (Main.get_statistics c2Cache0 c2Db c2Params 0).2.2 = true ∧
    (Main.get_statistics
        (Main.get_statistics c2Cache0 c2Db c2Params 0).2.1
        c2Db c2Params 301).2.2 = true := by
  have h1 : Main.get_statistics c2Cache0 c2Db c2Params 0
      = (c2Db c2Params,
         c2Cache0.set (Main.cacheKeyFor c2Params) (c2Db c2Params) (some 300) 0,
         true) :=
    Main.get_statistics_miss c2Cache0 c2Db c2Params 0 rfl
  refine ⟨by rw [h1], ?_⟩
  rw [h1]
  have hset : lookupKey
      (c2Cache0.set (Main.cacheKeyFor c2Params) (c2Db c2Params)
        (some 300) 0).cache (Main.cacheKeyFor c2Params)
      = some ⟨c2Db c2Params, 0 + ((300 : ℤ) : ℚ)⟩ := by
    simp [CacheManager.set, lookupKey_setKey_self]
  have hexp : (301 : ℚ) > 0 + ((300 : ℤ) : ℚ) := by push_cast; norm_num
  rw [Main.get_statistics_expired _ c2Db c2Params 301 _ hset hexp]

/-- C2 (amended): starting from a cache with no entry for the key, two
calls with identical parameters, no intervening `clear()` and the second
call at most 300 seconds (the handler's TTL) after the first, invoke the
database computation exactly once — the second call is served from the
cache and returns the same result; a `clear()` between the two calls
forces the second call to invoke the computation again. -/
theorem stats_handler_single_invocation_within_ttl
    (cache : CacheManager Database.StatsResult)
    (db : Main.Params → Database.StatsResult) (p : Main.Params) (t₁ t₂ : ℚ)
    (habs : lookupKey cache.cache (Main.cacheKeyFor p) = none)
    (_h12 : t₁ ≤ t₂) (httl : t₂ ≤ t₁ + 300) :
    (Main.get_statistics cache db p t₁).2.2 = true ∧
    (Main.get_statistics (Main.get_statistics cache db p t₁).2.1 db p t₂).2.2
        = false ∧
    (Main.get_statistics (Main.get_statistics cache db p t₁).2.1 db p t₂).1
        = db p ∧
    (Main.get_statistics
        ((Main.get_statistics cache db p t₁).2.1.clear) db p t₂).2.2
        = true := by
  have h1 := Main.get_statistics_miss cache db p t₁ habs
  have hset : lookupKey ((Main.get_statistics cache db p t₁).2.1).cache
      (Main.cacheKeyFor p) = some ⟨db p, t₁ + ((300 : ℤ) : ℚ)⟩ := by
    rw [h1]
    simp [CacheManager.set, lookupKey_setKey_self]
  have hlive : ¬ t₂ > t₁ + ((300 : ℤ) : ℚ) := by push_cast; linarith
  have h2 := Main.get_statistics_hit _ db p t₂ _ hset hlive
  have hcl : lookupKey
      (((Main.get_statistics cache db p t₁).2.1).clear).cache
      (Main.cacheKeyFor p) = none := rfl
  refine ⟨by rw [h1], by rw [h2], by rw [h2], ?_⟩
  rw [Main.get_statistics_miss _ db p t₂ hcl]

/-- Witness for the amended C2 at a concrete empty cache and calls at
times 0 and 100. -/
theorem stats_handler_single_invocation_within_ttl_witness :
    lookupKey c2Cache0.cache (Main.cacheKeyFor c2Params) = none ∧
    (0 : ℚ) ≤ 100 ∧ (100 : ℚ) ≤ 0 + 300 ∧
    ((Main.get_statistics c2Cache0 c2Db c2Params 0).2.2 = true ∧
     (Main.get_statistics (Main.get_statistics c2Cache0 c2Db c2Params 0).2.1
        c2Db c2Params 100).2.2 = false ∧
     (Main.get_statistics (Main.get_statistics c2Cache0 c2Db c2Params 0).2.1
        c2Db c2Params 100).1 = c2Db c2Params ∧
     (Main.get_statistics
        ((Main.get_statistics c2Cache0 c2Db c2Params 0).2.1.clear)
        c2Db c2Params 100).2.2 = true) :=
  ⟨rfl, by norm_num, by norm_num,
    stats_handler_single_invocation_within_ttl c2Cache0 c2Db c2Params 0 100
      rfl (by norm_num) (by norm_num)⟩

/-- C3 failing input: two `search` records with stored per-record rates
10 (10 conversions / 100 clicks) and 100 (1 conversion / 1 click). -/
def c3Rows : List Database.AdRow :=
  [⟨"2024-01-01", "search", 100, 10, 10⟩, ⟨"2024-01-01", "search", 1, 1, 100⟩]

/-- C3 (code bug): `get_channel_summary` reports avg_conversion_rate 55 —
the SQL `AVG` (mean) of the stored per-record rates — while the
totals-based formula over the same group, sum(conversions)/sum(clicks)
× 100 = 11/101 × 100, rounds to 10.89 ≠ 55. -/
theorem channel_summary_avg_is_row_mean_not_totals :
    Database.get_channel_summary c3Rows = [⟨"search", 2, 101, 11, 55⟩] ∧
    round2 (((11 : ℚ) / 101) * 100) = 10.89 ∧ (55 : ℚ) ≠ 10.89 := by
  refine ⟨?_, ?_, by norm_num⟩
  · simp [Database.get_channel_summary, Database.channelsFirstSeen, c3Rows,
      Database.sortByClicksDesc, Database.insertByClicksDesc]
    norm_num [round2, round_eq]
  · norm_num [round2, round_eq]

/-- C4 failing input: a valid record with clicks = 0 and 5 conversions,
next to an ordinary record. -/
def c4Rows : List DataProcessing.CsvRow :=
  [⟨"2024-01-01", "search", some 0, some 5⟩,
   ⟨"2024-01-02", "search", some 10, some 1⟩]

/-- C4 (code bug): the zero-click record is dropped by `process_csv_data`
(line 40, `df = df[df['clicks'] > 0]`) — only the other record survives —
so its 5 conversions never reach any aggregate total, contrary to the
claim that zero-click records are included in the totals. -/
theorem process_csv_drops_zero_click_record :
    DataProcessing.process_csv_data c4Rows
      = [⟨"2024-01-02", "search", 10, 1, 10⟩] := by
  have hdropna : DataProcessing.dropnaClicksConversions c4Rows
      = [⟨"2024-01-01", "search", 0, 5⟩, ⟨"2024-01-02", "search", 10, 1⟩] :=
    rfl
  simp only [DataProcessing.process_csv_data, hdropna]
  norm_num [List.filter_cons]

/-- C6 counterexample input: channel "b" (100 clicks) first, then
channel "a" (50 clicks). -/
def c6Rows : List DataProcessing.ProcRow :=
  [⟨"2024-01-01", "b", 100, 10, 10⟩, ⟨"2024-01-01", "a", 50, 5, 10⟩]

/-- C6 counterexample: `aggregate_by_channel` returns the groups in
ascending channel-name order — here [("a", 50 clicks), ("b", 100 clicks)]
— which is not sorted descending by total clicks. -/
theorem aggregate_by_channel_not_sorted_by_clicks :
    (DataProcessing.aggregate_by_channel c6Rows).map
        (fun g => (g.channel, g.clicks)) = [("a", 50), ("b", 100)] ∧
    ¬ ((DataProcessing.aggregate_by_channel c6Rows).map
        (fun g => g.clicks)).Sorted (fun a b => b ≤ a) := by
  have hba : ¬ ("b" : String) ≤ "a" := by
    rw [String.le_iff_toList_le]
    decide
  have hchan : DataProcessing.sortChannelsAsc
      (DataProcessing.channelsSeen c6Rows) = ["a", "b"] := by
    simp [DataProcessing.channelsSeen, DataProcessing.sortChannelsAsc,
      DataProcessing.insertChannelAsc, c6Rows, hba]
  have hne : c6Rows ≠ [] := by simp [c6Rows]
  have hagg : DataProcessing.aggregate_by_channel c6Rows
      = [⟨"a", 50, 5, 10⟩, ⟨"b", 100, 10, 10⟩] := by
    have hban : ("b" : String) ≠ "a" := by decide
    have hab : ("a" : String) ≠ "b" := by decide
    rw [DataProcessing.aggregate_by_channel, if_neg hne, hchan]
    norm_num [c6Rows, List.filter_cons, hban, hab]
  refine ⟨?_, ?_⟩
  · rw [hagg]
    norm_num
  · intro hsort
    rw [hagg] at hsort
    norm_num [List.sorted_cons] at hsort

/-- C6 (amended): `get_channel_summary` (SQL `ORDER BY total_clicks DESC`)
returns rows sorted descending by total_clicks (SQL leaves the tie order
unspecified), while `aggregate_by_channel` returns its groups in
ascending channel-name order — the pandas groupby key order — and never
sorts by clicks. -/
theorem channel_grouping_order_amended :
    (∀ rows : List Database.AdRow,
        ((Database.get_channel_summary rows).map
          (fun s => s.total_clicks)).Sorted (fun a b => b ≤ a)) ∧
    (∀ rows : List DataProcessing.ProcRow,
        ((DataProcessing.aggregate_by_channel rows).map
          (fun g => g.channel)).Sorted (fun a b => a ≤ b)) := by
  constructor
  · intro rows
    unfold Database.get_channel_summary
    exact (Database.sorted_sortByClicksDesc _).map _ (fun a b h => h)
  · intro rows
    unfold DataProcessing.aggregate_by_channel
    split_ifs
    · simp
    · rw [List.map_map]
      exact (DataProcessing.sorted_sortChannelsAsc _).map _ (fun a b h => h)
